import Mathlib

/-!
Shallow embedding of the three simulation engines of the
grey-wolf-opt-visualization repository (src/components/Canvas/AcoSimulation.tsx,
src/components/Canvas/WolfSimulation.tsx which also contains BeesSimulation,
src/types.ts), together with theorems settling the frozen claims about them.

Modelling conventions:
* JavaScript numbers are modelled as `ℚ`; the only non-rational operations the
  engine logic performs are `Math.sqrt` (inside the Euclidean `distance`
  helpers and `getFitness`) and `Math.exp` (inside `getFitness`), so those
  whole evaluation functions are abstracted as parameters
  (`d : Dist`, `fit : ℚ → ℚ → ℚ`); where a claim needs it we add the
  hypothesis that distances are nonnegative, which `Math.sqrt` guarantees.
* `Math.random()` draws are modelled as explicit streams of rationals,
  threaded in the exact order the source consumes them.
* `Infinity` sentinels (`bestDistRef`, the initial wolf `score`) are modelled
  with `WithTop ℚ` (`⊤` = Infinity).
* Each React component's persistent refs form a state structure, and each
  `animate` callback's logic part is a pure state-transition function taking
  the `SimulationConfig`; rendering, `onStatsUpdate` and the React UI state
  (`setPhaseDescription`, `setCurrentPhase`) are sinks and are not part of
  the engine state.
-/

namespace GWViz

/-- Configuration record, from src/types.ts `SimulationConfig`. -/
structure SimulationConfig where
  populationSize : ℕ
  speed : ℚ
  isRunning : Bool

/-- A 2D point (src/types.ts `Point`), with coordinates as rationals. -/
abbrev Pt : Type := ℚ × ℚ

/-- Abstracted Euclidean distance between city indices: in the source,
`distance(cities[i], cities[j])` with `Math.sqrt`; the city list is fixed at
initialization, so the whole map `(i, j) ↦ distance` is a parameter. -/
abbrev Dist : Type := ℕ → ℕ → ℚ

/-- Pheromone matrix, `pheromonesRef.current`, as a total function on index
pairs (the source only ever reads and writes indices below `CITY_COUNT`). -/
abbrev Phero : Type := ℕ → ℕ → ℚ

/-- `const CITY_COUNT = 15` in AcoSimulation.tsx. -/
def CITY_COUNT : ℕ := 15

/-- `const CANVAS_SIZE = 600`. -/
def CANVAS_SIZE : ℚ := 600

/-! ### ACO engine (AcoSimulation.tsx) -/

/-- The roulette-wheel loop of AcoSimulation.tsx lines 89-95: walk the
parallel lists of probabilities and candidates, subtracting each probability
from the running value `r`; the first index where `r ≤ 0` is selected, and if
the loop finishes without that happening the fallback (initialized at line 88
to the last candidate) is returned. -/
def selectLoop : List ℚ → List ℕ → ℚ → ℕ → ℕ
  | [], _, _, fb => fb
  | _ :: _, [], _, fb => fb
  | p :: ps, c :: cs, r, fb => if r - p ≤ 0 then c else selectLoop ps cs (r - p) fb

/-- Roulette-wheel selection, AcoSimulation.tsx lines 86-95:
`r = Math.random() * sumProb`, fallback `candidates[candidates.length - 1]`. -/
def rouletteSelect (probs : List ℚ) (cands : List ℕ) (rand : ℚ) : ℕ :=
  selectLoop probs cands (rand * probs.sum) (cands.getLastD 0)

/-- Desirability of moving from `cur` to `next`, line 79:
`Math.pow(pheromone, 1) * Math.pow(1 / dist, 2)`. -/
def probOf (d : Dist) (ph : Phero) (cur next : ℕ) : ℚ :=
  ph cur next ^ 1 * (1 / d cur next) ^ 2

/-- The unvisited candidate cities, in iteration order of the `for next`
loop of lines 74-84. -/
def candidatesOf (n : ℕ) (visited : Finset ℕ) : List ℕ :=
  (List.range n).filter (fun c => decide (c ∉ visited))

/-- The body of the `while (visited.size < CITY_COUNT)` loop of lines 68-100.
Each iteration adds one (previously unvisited) selected city, so the loop
runs exactly `CITY_COUNT - visited.size` times; `steps` is that count.
`acc` is the path built so far, in reverse; `ridx` indexes the random
stream (one `Math.random()` draw per iteration, line 87). -/
def buildPathAux (n : ℕ) (d : Dist) (ph : Phero) (rand : ℕ → ℚ) :
    ℕ → ℕ → Finset ℕ → List ℕ → ℕ → List ℕ
  | 0, _, _, acc, _ => acc.reverse
  | steps + 1, cur, visited, acc, ridx =>
    let cands := candidatesOf n visited
    let probs := cands.map (probOf d ph cur)
    let sel := rouletteSelect probs cands (rand ridx)
    buildPathAux n d ph rand steps sel (insert sel visited) (sel :: acc) (ridx + 1)

/-- Start city, line 64: `Math.floor(Math.random() * CITY_COUNT)`. -/
def antStart (n : ℕ) (r : ℚ) : ℕ := (⌊r * (n : ℚ)⌋).toNat

/-- One ant's path construction, lines 62-100: random start city (draw 0 of
the ant's stream), then the selection loop (draws 1, 2, ...). -/
def acoAntPath (d : Dist) (ph : Phero) (rand : ℕ → ℚ) : List ℕ :=
  let start := antStart CITY_COUNT (rand 0)
  buildPathAux CITY_COUNT d ph rand (CITY_COUNT - 1) start {start} [start] 1

/-- The paths of all `populationSize` ants constructed in one tick
(the `for k` loop of line 61); ant `k` uses random stream `rand k`. -/
def acoTickPaths (cfg : SimulationConfig) (d : Dist) (ph : Phero)
    (rand : ℕ → ℕ → ℚ) : List (List ℕ) :=
  (List.range cfg.populationSize).map (fun k => acoAntPath d ph (rand k))

/-- Sum of distances over consecutive path entries, lines 107-110. -/
def consecSum (d : Dist) : List ℕ → ℚ
  | a :: b :: rest => d a b + consecSum d (b :: rest)
  | _ => 0

/-- Total tour length including the closing edge, lines 107-112. -/
def tourLen (d : Dist) (p : List ℕ) : ℚ :=
  consecSum d p + d (p.getLastD 0) (p.headD 0)

/-- Best-so-far update for one ant, lines 115-118: replace the stored pair
only on a strict `<` comparison. -/
def updateBest (b : WithTop ℚ × List ℕ) (dp : ℚ × List ℕ) : WithTop ℚ × List ℕ :=
  if (dp.1 : WithTop ℚ) < b.1 then ((dp.1 : WithTop ℚ), dp.2) else b

/-- `const rho = 0.1` (line 122). -/
def rho : ℚ := 1 / 10

/-- Evaporation, lines 123-127: every entry is multiplied by `(1 - rho)`. -/
def evaporate (ph : Phero) : Phero :=
  fun i j => ph i j * (1 - rho)

/-- A single `pheromones[a][b] += c` assignment. -/
def bump (ph : Phero) (a b : ℕ) (c : ℚ) : Phero :=
  fun i j => if i = a ∧ j = b then ph i j + c else ph i j

/-- Deposit on both directed edges of a pair, lines 135-136 (and 141-142):
first `[u][v] += c`, then `[v][u] += c`. -/
def depositEdge (ph : Phero) (u v : ℕ) (c : ℚ) : Phero :=
  bump (bump ph u v c) v u c

/-- Deposit along the consecutive edges of a path, lines 132-137. -/
def depositPath (c : ℚ) : List ℕ → Phero → Phero
  | a :: b :: rest, ph => depositPath c (b :: rest) (depositEdge ph a b c)
  | _, ph => ph

/-- Deposit along a whole tour: consecutive edges, then the closing edge
from the last entry back to the first (lines 138-142). -/
def depositTour (ph : Phero) (c : ℚ) (p : List ℕ) : Phero :=
  match p with
  | [] => ph
  | a :: _ => depositEdge (depositPath c p ph) (p.getLastD 0) a c

/-- ACO engine state: the persistent refs of AcoSimulation.tsx
(`pheromonesRef`, `bestPathRef`, `bestDistRef`, `iterationRef`). -/
structure AcoState where
  pheromones : Phero
  bestPath : List ℕ
  bestDist : WithTop ℚ
  iteration : ℕ

/-- The logic part of one `animate` call of AcoSimulation.tsx: when paused
(`!config.isRunning`, lines 45-48) the call only reschedules itself and
leaves all refs unchanged; otherwise it increments the iteration counter,
constructs all ant paths against the current pheromone matrix, folds the
best-so-far update over the ants in order, then evaporates and deposits. -/
def acoTick (cfg : SimulationConfig) (d : Dist) (rand : ℕ → ℕ → ℚ)
    (st : AcoState) : AcoState :=
  if cfg.isRunning then
    let paths := acoTickPaths cfg d st.pheromones rand
    let pairs := paths.zip (paths.map (tourLen d))
    let best := pairs.foldl (fun b pd => updateBest b (pd.2, pd.1))
      (st.bestDist, st.bestPath)
    let ph1 := evaporate st.pheromones
    let ph2 := pairs.foldl (fun ph pd => depositTour ph (100 / pd.2) pd.1) ph1
    { pheromones := ph2, bestPath := best.2, bestDist := best.1,
      iteration := st.iteration + 1 }
  else st

/-- Initial ACO state, lines 36-39: all-ones pheromones, best distance
`Infinity`, empty best path, iteration 0. -/
def acoInit : AcoState :=
  { pheromones := fun _ _ => 1, bestPath := [], bestDist := ⊤, iteration := 0 }

/-- The ACO engine run: state after `k` animation ticks, tick `k` consuming
random streams `rand k`. -/
def acoRun (cfg : SimulationConfig) (d : Dist) (rand : ℕ → ℕ → ℕ → ℚ) : ℕ → AcoState
  | 0 => acoInit
  | k + 1 => acoTick cfg d (rand k) (acoRun cfg d rand k)

/-! ### GWO engine (WolfSimulation.tsx) -/

/-- The five simulation phases, `enum Phase` of WolfSimulation.tsx. -/
inductive Phase where
  | MOVE_PREY
  | EVALUATE
  | RANK
  | CALCULATE
  | MOVE_WOLVES
deriving DecidableEq

/-- `type WolfType = 'alpha' | 'beta' | 'delta' | 'omega'`. -/
inductive WolfType where
  | alpha
  | beta
  | delta
  | omega
deriving DecidableEq

/-- The `Wolf` interface of WolfSimulation.tsx; `score` is `WithTop ℚ`
because it is initialized to `Infinity`. -/
structure Wolf where
  id : ℕ
  x : ℚ
  y : ℚ
  targetX : ℚ
  targetY : ℚ
  type : WolfType
  score : WithTop ℚ

/-- GWO engine state: the persistent refs of WolfSimulation.tsx
(`wolvesRef`, `preyRef`, `phaseRef`, `phaseTimerRef`, `iterationRef`). -/
structure GwoState where
  wolves : List Wolf
  prey : Pt
  phase : Phase
  phaseTimer : ℚ
  iteration : ℕ

/-- Ascending comparison by score, the `(a, b) => a.score - b.score`
comparator of line 158. -/
def wolfLE (a b : Wolf) : Prop := a.score ≤ b.score

instance : DecidableRel wolfLE := fun a b => inferInstanceAs (Decidable (a.score ≤ b.score))

instance : IsTotal Wolf wolfLE := ⟨fun a b => le_total a.score b.score⟩

instance : IsTrans Wolf wolfLE := ⟨fun _ _ _ h h' => le_trans h h'⟩

/-- Reset a wolf to omega (line 161). -/
def toOmega (w : Wolf) : Wolf := { w with type := WolfType.omega }

/-- Assign types by position in the score-sorted order, lines 161-166:
everything is reset to omega first, then the first three sorted wolves (when
they exist) get alpha, beta, delta. -/
def assignRanks : List Wolf → List Wolf
  | [] => []
  | [a] => [{ a with type := WolfType.alpha }]
  | [a, b] => [{ a with type := WolfType.alpha }, { b with type := WolfType.beta }]
  | a :: b :: c :: rest =>
    { a with type := WolfType.alpha } :: { b with type := WolfType.beta } ::
      { c with type := WolfType.delta } :: rest.map toOmega

/-- The RANK action (lines 156-166). The source sorts a copied array of
shared wolf references (a stable sort, ascending by score) and mutates the
`type` field in place, leaving `wolvesRef` in its original order; we model
the resulting population in sorted order, which is the same multiset of
wolves, since every later consumer of the population
(`find`, `map`, `forEach`, the stats) is order-insensitive once each leader
type is held by exactly one wolf. -/
def rankStep (ws : List Wolf) : List Wolf :=
  assignRanks (List.insertionSort wolfLE ws)

/-- `wolves.find(w => w.type === t)` (lines 175-177, 120, 244). -/
def findType (ws : List Wolf) (t : WolfType) : Option Wolf :=
  ws.find? (fun w => decide (w.type = t))

/-- The per-dimension GWO update of lines 184-204. The six `Math.random()`
draws are passed as `r1 ... r6` in the order the source makes them. Note
that the source computes `A3 = 2 * A * r3 - A` (line 198), reusing `r3`
from the beta term; `r5` is drawn (line 197) but never used. -/
def computeDim (A r1 r2 r3 r4 r5 r6 current alphaPos betaPos deltaPos : ℚ) : ℚ :=
  let A1 := 2 * A * r1 - A
  let C1 := 2 * r2
  let D_alpha := |C1 * alphaPos - current|
  let X1 := alphaPos - A1 * D_alpha
  let A2 := 2 * A * r3 - A
  let C2 := 2 * r4
  let D_beta := |C2 * betaPos - current|
  let X2 := betaPos - A2 * D_beta
  let A3 := 2 * A * r3 - A
  let C3 := 2 * r6
  let D_delta := |C3 * deltaPos - current|
  let X3 := deltaPos - A3 * D_delta
  (X1 + X2 + X3) / 3

/-- Modelled from the spec: the same per-dimension update as `computeDim`
but with the delta coefficient formed from the fresh draw `r5`
(`A3 = 2·A·r5 − A`), as §4.2 and §9 of the spec demand; the source differs. -/
def computeDimSpec (A r1 r2 r3 r4 r5 r6 current alphaPos betaPos deltaPos : ℚ) : ℚ :=
  let A1 := 2 * A * r1 - A
  let C1 := 2 * r2
  let D_alpha := |C1 * alphaPos - current|
  let X1 := alphaPos - A1 * D_alpha
  let A2 := 2 * A * r3 - A
  let C2 := 2 * r4
  let D_beta := |C2 * betaPos - current|
  let X2 := betaPos - A2 * D_beta
  let A3 := 2 * A * r5 - A
  let C3 := 2 * r6
  let D_delta := |C3 * deltaPos - current|
  let X3 := deltaPos - A3 * D_delta
  (X1 + X2 + X3) / 3

/-- `Math.max(10, Math.min(CANVAS_SIZE - 10, t))` (lines 210-211). -/
def clampWolf (t : ℚ) : ℚ := max 10 (min (CANVAS_SIZE - 10) t)

/-- Target update for one wolf inside the CALCULATE `forEach`
(lines 180-212): `computeDim` for x (draws 0-5 of the wolf's stream), then
for y (draws 6-11), then clamping to the canvas. -/
def calcWolf (A : ℚ) (al be de : Wolf) (r : ℕ → ℚ) (w : Wolf) : Wolf :=
  let tx := computeDim A (r 0) (r 1) (r 2) (r 3) (r 4) (r 5) w.x al.x be.x de.x
  let ty := computeDim A (r 6) (r 7) (r 8) (r 9) (r 10) (r 11) w.y al.y be.y de.y
  { w with targetX := clampWolf tx, targetY := clampWolf ty }

/-- The CALCULATE action (lines 173-213): find the three leaders; if any is
missing the whole update is skipped (the `if (alpha && beta && delta)`
guard), otherwise each wolf gets a fresh target via `calcWolf`, the decay
coefficient being `A = 2 - 2 * (iteration / 1000)` (line 182); wolf `i`
consumes random stream `rand i`. -/
def calculateStep (rand : ℕ → ℕ → ℚ) (iter : ℕ) (ws : List Wolf) : List Wolf :=
  match findType ws WolfType.alpha, findType ws WolfType.beta,
      findType ws WolfType.delta with
  | some al, some be, some de =>
    let A : ℚ := 2 - 2 * ((iter : ℚ) / 1000)
    (ws.zip (List.range ws.length)).map (fun wi => calcWolf A al be de (rand wi.2) wi.1)
  | _, _, _ => ws

/-- The `advancePhase` switch of WolfSimulation.tsx lines 132-226. The
MOVE_PREY action recomputes the prey position from `Date.now()` through
`cos`/`sin`; that wall-clock, transcendental value is abstracted as the
external input `newPrey`. The EVALUATE action sets each score to the
distance from the wolf to the prey (`d` abstracts `distance`). -/
def advancePhase (d : Pt → Pt → ℚ) (newPrey : Pt) (rand : ℕ → ℕ → ℚ)
    (st : GwoState) : GwoState :=
  match st.phase with
  | Phase.MOVE_PREY => { st with prey := newPrey, phase := Phase.EVALUATE }
  | Phase.EVALUATE =>
    { st with
      wolves := st.wolves.map (fun w => { w with score := ((d (w.x, w.y) st.prey : ℚ) : WithTop ℚ) }),
      phase := Phase.RANK }
  | Phase.RANK => { st with wolves := rankStep st.wolves, phase := Phase.CALCULATE }
  | Phase.CALCULATE =>
    { st with
      wolves := calculateStep rand st.iteration st.wolves,
      phase := Phase.MOVE_WOLVES }
  | Phase.MOVE_WOLVES =>
    { st with iteration := st.iteration + 1, phase := Phase.MOVE_PREY }

/-- `lerp` of line 82. -/
def lerp (start finish t : ℚ) : ℚ := start * (1 - t) + finish * t

/-- The logic part of one `animate` call of WolfSimulation.tsx lines 85-130:
when paused the call only reschedules itself (lines 86-89); otherwise the
phase timer advances by the speed multiplier, `advancePhase` fires when the
timer crosses `PHASE_DURATION = 150` (resetting the timer), and afterwards,
in the movement phases, every wolf is interpolated toward its target at
`0.05 * speedMultiplier`. -/
def gwoTick (cfg : SimulationConfig) (d : Pt → Pt → ℚ) (newPrey : Pt)
    (rand : ℕ → ℕ → ℚ) (st : GwoState) : GwoState :=
  if cfg.isRunning then
    let speedMult : ℚ := 1 / 5 + (cfg.speed / 100) * (4 / 5)
    let timer := st.phaseTimer + speedMult
    let st1 :=
      if 150 ≤ timer then advancePhase d newPrey rand { st with phaseTimer := 0 }
      else { st with phaseTimer := timer }
    if st1.phase = Phase.MOVE_WOLVES ∨ st1.phase = Phase.MOVE_PREY then
      { st1 with
        wolves := st1.wolves.map (fun w =>
          { w with x := lerp w.x w.targetX (1 / 20 * speedMult),
                   y := lerp w.y w.targetY (1 / 20 * speedMult) }) }
    else st1
  else st

/-- GWO initialization, WolfSimulation.tsx lines 58-77: `populationSize`
wolves with random positions (and random targets immediately overwritten to
equal the positions by the `forEach` of line 70), type omega, score
`Infinity`. Wolf `i` consumes random stream `rand i`. There is no
validation of `populationSize`. -/
def gwoInitWolves (n : ℕ) (rand : ℕ → ℕ → ℚ) : List Wolf :=
  (List.range n).map (fun i =>
    let w : Wolf :=
      { id := i, x := rand i 0 * CANVAS_SIZE, y := rand i 1 * CANVAS_SIZE,
        targetX := rand i 2 * CANVAS_SIZE, targetY := rand i 3 * CANVAS_SIZE,
        type := WolfType.omega, score := ⊤ }
    { w with targetX := w.x, targetY := w.y })

/-! ### Bees engine (BeesSimulation in WolfSimulation.tsx) -/

/-- Bees engine state: the persistent refs of BeesSimulation
(`beesRef`, `bestRef`, `iterationRef`). -/
structure BeesState where
  bees : List Pt
  best : ℚ
  iteration : ℕ

/-- Descending comparison by score, the `(a, b) => b.score - a.score`
comparator of the scored-bees sort. -/
def beeGE (a b : Pt × ℚ) : Prop := b.2 ≤ a.2

instance : DecidableRel beeGE := fun a b => inferInstanceAs (Decidable (b.2 ≤ a.2))

instance : IsTotal (Pt × ℚ) beeGE := ⟨fun a b => le_total b.2 a.2⟩

instance : IsTrans (Pt × ℚ) beeGE := ⟨fun _ _ _ h h' => le_trans h' h⟩

/-- `Math.max(0, Math.min(CANVAS_SIZE, x))`, the neighbor clamping. -/
def clampBee (x : ℚ) : ℚ := max 0 (min CANVAS_SIZE x)

/-- The elite-sites loop: for each of the `eliteCount` best scored bees,
keep the elite verbatim and push one recruited neighbor within ±10 per
axis; each iteration consumes two random draws. The accumulator carries
the list built so far and the next random index. -/
def eliteLoop (sorted : List (Pt × ℚ)) (rand : ℕ → ℚ) (eliteCount : ℕ) :
    List Pt × ℕ :=
  (List.range eliteCount).foldl (fun acc i =>
    let s := sorted.getD i ((0, 0), 0)
    let nx := s.1.1 + (rand acc.2 - 1 / 2) * 20
    let ny := s.1.2 + (rand (acc.2 + 1) - 1 / 2) * 20
    (acc.1 ++ [s.1, (clampBee nx, clampBee ny)], acc.2 + 2)) ([], 0)

/-- The other-good-sites loop: for `i` from `eliteCount` to `bestCount - 1`,
while the new population is still below `populationSize`, push one neighbor
within ±25 per axis (two draws, consumed only when the push happens). -/
def goodLoop (n : ℕ) (sorted : List (Pt × ℚ)) (rand : ℕ → ℚ)
    (eliteCount bestCount : ℕ) (st0 : List Pt × ℕ) : List Pt × ℕ :=
  (List.range' eliteCount (bestCount - eliteCount)).foldl (fun acc i =>
    if acc.1.length < n then
      let s := sorted.getD i ((0, 0), 0)
      let nx := s.1.1 + (rand acc.2 - 1 / 2) * 50
      let ny := s.1.2 + (rand (acc.2 + 1) - 1 / 2) * 50
      (acc.1 ++ [(clampBee nx, clampBee ny)], acc.2 + 2)
    else acc) st0

/-- The scouts `while (newBees.length < populationSize)` loop: fill the
remaining slots with uniformly random points. Each pushed scout consumes
two draws; `fuel` bounds the iterations (the loop adds one bee per
iteration, so `n` iterations always suffice). -/
def scoutFill (n : ℕ) (rand : ℕ → ℚ) : ℕ → List Pt × ℕ → List Pt × ℕ
  | 0, acc => acc
  | fuel + 1, acc =>
    if acc.1.length < n then
      scoutFill n rand fuel
        (acc.1 ++ [(rand acc.2 * CANVAS_SIZE, rand (acc.2 + 1) * CANVAS_SIZE)],
          acc.2 + 2)
    else acc

/-- The logic part of one `animate` call of BeesSimulation: when paused the
call only reschedules itself; otherwise score every bee (`fit` abstracts
`getFitness`, which uses `Math.exp`/`Math.sqrt`), sort descending, update
the global best on a strict `>`, rebuild the population from elites,
recruited neighbors, other-good neighbors and scouts, and truncate with
`slice(0, populationSize)`. `eliteCount = ⌊0.2·N⌋`, `bestCount = ⌊0.5·N⌋`. -/
def beesTick (cfg : SimulationConfig) (fit : ℚ → ℚ → ℚ) (rand : ℕ → ℚ)
    (st : BeesState) : BeesState :=
  if cfg.isRunning then
    let n := cfg.populationSize
    let scored := st.bees.map (fun b => (b, fit b.1 b.2))
    let sorted := List.insertionSort beeGE scored
    let best' :=
      if st.best < (sorted.getD 0 ((0, 0), 0)).2 then (sorted.getD 0 ((0, 0), 0)).2
      else st.best
    let eliteCount := n / 5
    let bestCount := n / 2
    let afterElite := eliteLoop sorted rand eliteCount
    let afterGood := goodLoop n sorted rand eliteCount bestCount afterElite
    let afterScout := scoutFill n rand n afterGood
    { bees := afterScout.1.take n, best := best', iteration := st.iteration + 1 }
  else st

/-- Bees initialization: `populationSize` uniformly random points; bee `i`
consumes random stream `rand i`. There is no validation of
`populationSize`. -/
def beesInitBees (n : ℕ) (rand : ℕ → ℕ → ℚ) : List Pt :=
  (List.range n).map (fun i => (rand i 0 * CANVAS_SIZE, rand i 1 * CANVAS_SIZE))

/-- The Bees engine run: state after `k` ticks; the init consumes
`randInit`, tick `k` consumes stream `rand k`. -/
def beesRun (cfg : SimulationConfig) (fit : ℚ → ℚ → ℚ)
    (randInit : ℕ → ℕ → ℚ) (rand : ℕ → ℕ → ℚ) : ℕ → BeesState
  | 0 => { bees := beesInitBees cfg.populationSize randInit, best := 0, iteration := 0 }
  | k + 1 => beesTick cfg fit (rand k) (beesRun cfg fit randInit rand k)

/-! ### Helper lemmas -/

theorem selectLoop_mem (S : List ℕ) :
    ∀ (probs : List ℚ) (cands : List ℕ) (r : ℚ) (fb : ℕ),
      fb ∈ S → (∀ c ∈ cands, c ∈ S) → selectLoop probs cands r fb ∈ S := by
  intro probs
  induction probs with
  | nil => intro cands r fb hfb _; simpa [selectLoop] using hfb
  | cons p ps ih =>
    intro cands r fb hfb hsub
    cases cands with
    | nil => simpa [selectLoop] using hfb
    | cons c cs =>
      simp only [selectLoop]
      split
      · exact hsub c (by simp)
      · exact ih cs (r - p) fb hfb (fun x hx => hsub x (by simp [hx]))

theorem getLastD_mem (c : ℕ) (cs : List ℕ) : (c :: cs).getLastD 0 ∈ c :: cs := by
  rw [List.getLastD_eq_getLast?, List.getLast?_eq_getLast (c :: cs) (by simp)]
  simp [List.getLast_mem]

theorem rouletteSelect_mem (probs : List ℚ) (cands : List ℕ) (r : ℚ)
    (hne : cands ≠ []) : rouletteSelect probs cands r ∈ cands := by
  cases cands with
  | nil => exact absurd rfl hne
  | cons c cs =>
    exact selectLoop_mem (c :: cs) probs (c :: cs) _ _ (getLastD_mem c cs)
      (fun x hx => hx)

theorem updateBest_fst_le (b : WithTop ℚ × List ℕ) (dp : ℚ × List ℕ) :
    (updateBest b dp).1 ≤ b.1 := by
  unfold updateBest
  split
  · exact le_of_lt (by assumption)
  · exact le_refl _

theorem foldl_updateBest_le (l : List (List ℕ × ℚ)) :
    ∀ b : WithTop ℚ × List ℕ,
      (l.foldl (fun b pd => updateBest b (pd.2, pd.1)) b).1 ≤ b.1 := by
  induction l with
  | nil => intro b; exact le_refl _
  | cons x xs ih =>
    intro b
    exact le_trans (ih (updateBest b (x.2, x.1))) (updateBest_fst_le b (x.2, x.1))

theorem acoTick_bestDist_le (cfg : SimulationConfig) (d : Dist)
    (rand : ℕ → ℕ → ℚ) (st : AcoState) :
    (acoTick cfg d rand st).bestDist ≤ st.bestDist := by
  unfold acoTick
  split
  · exact foldl_updateBest_le _ (st.bestDist, st.bestPath)
  · exact le_refl _

theorem acoRun_bestDist_antitone (cfg : SimulationConfig) (d : Dist)
    (rand : ℕ → ℕ → ℕ → ℚ) {k m : ℕ} (h : k ≤ m) :
    (acoRun cfg d rand m).bestDist ≤ (acoRun cfg d rand k).bestDist := by
  induction m with
  | zero =>
    have : k = 0 := Nat.le_zero.mp h
    subst this; exact le_refl _
  | succ m ih =>
    rcases Nat.lt_or_ge k (m + 1) with hk | hk
    · exact le_trans (acoTick_bestDist_le cfg d (rand m) (acoRun cfg d rand m))
        (ih (Nat.lt_succ_iff.mp hk))
    · have hkm : k = m + 1 := le_antisymm h hk
      subst hkm; exact le_refl _

theorem scoutFill_length_ge (n : ℕ) (rand : ℕ → ℚ) :
    ∀ (fuel : ℕ) (acc : List Pt × ℕ), n ≤ acc.1.length + fuel →
      n ≤ (scoutFill n rand fuel acc).1.length := by
  intro fuel
  induction fuel with
  | zero => intro acc h; simpa [scoutFill] using h
  | succ f ih =>
    intro acc h
    simp only [scoutFill]
    split
    · apply ih
      simp only [List.length_append, List.length_cons, List.length_nil]
      omega
    · omega

theorem beesTick_bees_length (cfg : SimulationConfig) (fit : ℚ → ℚ → ℚ)
    (rand : ℕ → ℚ) (st : BeesState) (hrun : cfg.isRunning = true) :
    (beesTick cfg fit rand st).bees.length = cfg.populationSize := by
  simp only [beesTick, hrun, if_true]
  rw [List.length_take]
  exact Nat.min_eq_left (scoutFill_length_ge _ _ _ _ (Nat.le_add_left _ _))

theorem exists_three_cons {α : Type} (l : List α) (h : 3 ≤ l.length) :
    ∃ a b c t, l = a :: b :: c :: t := by
  rcases l with _ | ⟨a, _ | ⟨b, _ | ⟨c, t⟩⟩⟩
  · simp at h
  · simp at h
  · simp at h
  · exact ⟨a, b, c, t, rfl⟩

theorem countP_map_toOmega (l : List Wolf) (t : WolfType)
    (h : t ≠ WolfType.omega) :
    (l.map toOmega).countP (fun w => decide (w.type = t)) = 0 := by
  induction l with
  | nil => rfl
  | cons w ws ih =>
    simp only [List.map_cons, List.countP_cons, ih, toOmega]
    simp [Ne.symm h]

theorem candidatesOf_mem {n : ℕ} {visited : Finset ℕ} {c : ℕ} :
    c ∈ candidatesOf n visited ↔ c < n ∧ c ∉ visited := by
  simp [candidatesOf, List.mem_filter, List.mem_range]

theorem candidatesOf_ne_nil {n : ℕ} {visited : Finset ℕ}
    (hsub : visited ⊆ Finset.range n) (hcard : visited.card < n) :
    candidatesOf n visited ≠ [] := by
  have hex : ∃ c, c < n ∧ c ∉ visited := by
    by_contra hall
    push_neg at hall
    have hsub2 : Finset.range n ⊆ visited := fun c hc =>
      hall c (Finset.mem_range.mp hc)
    have hle := Finset.card_le_card hsub2
    rw [Finset.card_range] at hle
    omega
  obtain ⟨c, h1, h2⟩ := hex
  exact List.ne_nil_of_mem (candidatesOf_mem.mpr ⟨h1, h2⟩)

theorem buildPathAux_perm (n : ℕ) (d : Dist) (ph : Phero) (rand : ℕ → ℚ) :
    ∀ (steps : ℕ) (cur : ℕ) (visited : Finset ℕ) (acc : List ℕ) (ridx : ℕ),
      visited.card + steps = n → visited ⊆ Finset.range n →
      acc.Nodup → (∀ a, a ∈ acc ↔ a ∈ visited) →
      List.Perm (buildPathAux n d ph rand steps cur visited acc ridx)
        (List.range n) := by
  intro steps
  induction steps with
  | zero =>
    intro cur visited acc ridx hcard hsub hnd hmem
    simp only [buildPathAux]
    have hv : visited = Finset.range n := by
      apply Finset.eq_of_subset_of_card_le hsub
      rw [Finset.card_range]
      omega
    have hperm : List.Perm acc (List.range n) := by
      apply List.perm_of_nodup_nodup_toFinset_eq hnd (List.nodup_range n)
      ext x
      simp [List.mem_toFinset, hmem, hv, List.mem_range, Finset.mem_range]
    exact acc.reverse_perm.trans hperm
  | succ s ih =>
    intro cur visited acc ridx hcard hsub hnd hmem
    simp only [buildPathAux]
    have hne : candidatesOf n visited ≠ [] :=
      candidatesOf_ne_nil hsub (by omega)
    have hstep : ∀ sel, sel ∈ candidatesOf n visited →
        List.Perm (buildPathAux n d ph rand s sel (insert sel visited)
          (sel :: acc) (ridx + 1)) (List.range n) := by
      intro sel hselmem
      obtain ⟨hlt, hnotv⟩ := candidatesOf_mem.mp hselmem
      apply ih sel (insert sel visited) (sel :: acc) (ridx + 1)
      · rw [Finset.card_insert_of_not_mem hnotv]
        omega
      · intro x hx
        rcases Finset.mem_insert.mp hx with rfl | hx2
        · exact Finset.mem_range.mpr hlt
        · exact hsub hx2
      · exact List.nodup_cons.mpr ⟨fun hsa => hnotv ((hmem sel).mp hsa), hnd⟩
      · intro a
        simp [List.mem_cons, hmem a, Finset.mem_insert]
    exact hstep _ (rouletteSelect_mem _ _ _ hne)

theorem antStart_lt (n : ℕ) (hn : 0 < n) (r : ℚ) (h0 : 0 ≤ r) (h1 : r < 1) :
    antStart n r < n := by
  unfold antStart
  have hmul0 : (0 : ℚ) ≤ r * (n : ℚ) := mul_nonneg h0 (by positivity)
  have hmul1 : r * (n : ℚ) < (n : ℚ) := by
    calc r * (n : ℚ) < 1 * (n : ℚ) :=
          mul_lt_mul_of_pos_right h1 (by exact_mod_cast hn)
      _ = (n : ℚ) := one_mul _
  have hfl : ⌊r * (n : ℚ)⌋ < (n : ℤ) := Int.floor_lt.mpr (by exact_mod_cast hmul1)
  have hfl0 : 0 ≤ ⌊r * (n : ℚ)⌋ := Int.floor_nonneg.mpr hmul0
  omega

theorem acoAntPath_perm (d : Dist) (ph : Phero) (rand : ℕ → ℚ)
    (h0 : 0 ≤ rand 0) (h1 : rand 0 < 1) :
    List.Perm (acoAntPath d ph rand) (List.range CITY_COUNT) := by
  unfold acoAntPath
  apply buildPathAux_perm
  · rw [Finset.card_singleton]
    norm_num [CITY_COUNT]
  · intro x hx
    rw [Finset.mem_singleton] at hx
    subst hx
    exact Finset.mem_range.mpr
      (antStart_lt CITY_COUNT (by norm_num [CITY_COUNT]) (rand 0) h0 h1)
  · exact List.nodup_singleton _
  · intro a
    simp

theorem depositEdge_apply (ph : Phero) (u v : ℕ) (c : ℚ) (i j : ℕ) :
    depositEdge ph u v c i j =
      ph i j + (if i = u ∧ j = v then c else 0) +
        (if i = v ∧ j = u then c else 0) := by
  simp only [depositEdge, bump]
  split_ifs <;> ring

theorem depositEdge_sym (ph : Phero) (u v : ℕ) (c : ℚ)
    (hsym : ∀ i j, ph i j = ph j i) (i j : ℕ) :
    depositEdge ph u v c i j = depositEdge ph u v c j i := by
  rw [depositEdge_apply, depositEdge_apply, hsym i j,
    if_congr (and_comm (a := j = u) (b := i = v)) rfl rfl,
    if_congr (and_comm (a := j = v) (b := i = u)) rfl rfl]
  ring

theorem depositEdge_pos (ph : Phero) (u v : ℕ) (c : ℚ) (hc : 0 ≤ c)
    (hpos : ∀ i j, 0 < ph i j) (i j : ℕ) : 0 < depositEdge ph u v c i j := by
  rw [depositEdge_apply]
  have hij := hpos i j
  split_ifs <;> linarith

theorem depositPath_sym_pos (c : ℚ) (hc : 0 ≤ c) :
    ∀ (p : List ℕ) (ph : Phero),
      (∀ i j, ph i j = ph j i) ∧ (∀ i j, 0 < ph i j) →
      (∀ i j, depositPath c p ph i j = depositPath c p ph j i) ∧
        (∀ i j, 0 < depositPath c p ph i j)
  | [], _, h => by simpa [depositPath] using h
  | [_], _, h => by simpa [depositPath] using h
  | a :: b :: rest, ph, h => by
    simp only [depositPath]
    exact depositPath_sym_pos c hc (b :: rest) (depositEdge ph a b c)
      ⟨depositEdge_sym ph a b c h.1, depositEdge_pos ph a b c hc h.2⟩

theorem depositTour_sym_pos (ph : Phero) (c : ℚ) (p : List ℕ) (hc : 0 ≤ c)
    (h : (∀ i j, ph i j = ph j i) ∧ (∀ i j, 0 < ph i j)) :
    (∀ i j, depositTour ph c p i j = depositTour ph c p j i) ∧
      (∀ i j, 0 < depositTour ph c p i j) := by
  cases p with
  | nil => simpa [depositTour] using h
  | cons a rest =>
    simp only [depositTour]
    have hmid := depositPath_sym_pos c hc (a :: rest) ph h
    exact ⟨depositEdge_sym _ _ _ _ hmid.1, depositEdge_pos _ _ _ _ hc hmid.2⟩

theorem foldl_deposit_sym_pos :
    ∀ (l : List (List ℕ × ℚ)) (ph : Phero),
      (∀ pd ∈ l, 0 ≤ 100 / pd.2) →
      (∀ i j, ph i j = ph j i) ∧ (∀ i j, 0 < ph i j) →
      (∀ i j, (l.foldl (fun ph pd => depositTour ph (100 / pd.2) pd.1) ph) i j =
          (l.foldl (fun ph pd => depositTour ph (100 / pd.2) pd.1) ph) j i) ∧
        (∀ i j, 0 < (l.foldl (fun ph pd => depositTour ph (100 / pd.2) pd.1) ph) i j)
  | [], _, _, h => by simpa using h
  | x :: xs, ph, hall, h => by
    simp only [List.foldl_cons]
    exact foldl_deposit_sym_pos xs (depositTour ph (100 / x.2) x.1)
      (fun pd hpd => hall pd (by simp [hpd]))
      (depositTour_sym_pos ph (100 / x.2) x.1 (hall x (by simp)) h)

theorem evaporate_sym_pos (ph : Phero)
    (h : (∀ i j, ph i j = ph j i) ∧ (∀ i j, 0 < ph i j)) :
    (∀ i j, evaporate ph i j = evaporate ph j i) ∧
      (∀ i j, 0 < evaporate ph i j) := by
  constructor
  · intro i j
    simp [evaporate, h.1 i j]
  · intro i j
    have hr : (0 : ℚ) < 1 - rho := by norm_num [rho]
    exact mul_pos (h.2 i j) hr

theorem consecSum_nonneg (d : Dist) (hd : ∀ i j, 0 ≤ d i j) :
    ∀ p : List ℕ, 0 ≤ consecSum d p
  | [] => le_refl 0
  | [_] => le_refl 0
  | a :: b :: rest => by
    simp only [consecSum]
    have h1 := consecSum_nonneg d hd (b :: rest)
    have h2 := hd a b
    linarith

theorem tourLen_nonneg (d : Dist) (hd : ∀ i j, 0 ≤ d i j) (p : List ℕ) :
    0 ≤ tourLen d p :=
  add_nonneg (consecSum_nonneg d hd p) (hd _ _)

theorem acoTick_pheromones_sym_pos (cfg : SimulationConfig) (d : Dist)
    (rand : ℕ → ℕ → ℚ) (st : AcoState) (hd : ∀ i j, 0 ≤ d i j)
    (h : (∀ i j, st.pheromones i j = st.pheromones j i) ∧
      (∀ i j, 0 < st.pheromones i j)) :
    (∀ i j, (acoTick cfg d rand st).pheromones i j =
        (acoTick cfg d rand st).pheromones j i) ∧
      (∀ i j, 0 < (acoTick cfg d rand st).pheromones i j) := by
  unfold acoTick
  split
  · refine foldl_deposit_sym_pos _ _ ?_ (evaporate_sym_pos st.pheromones h)
    intro pd hpd
    obtain ⟨_, hz2⟩ := List.of_mem_zip hpd
    obtain ⟨q, _, hq2⟩ := List.mem_map.mp hz2
    rw [← hq2]
    exact div_nonneg (by norm_num) (tourLen_nonneg d hd q)
  · exact h

/-! ### Claim theorems -/

/-- C6: pause is a no-op: for each of the three engines (ACO, GWO, Bees) and
every engine state, a tick invoked while `isRunning = false` leaves the
entire engine state — pheromones, best-so-far, positions, scores, phase,
phase timer, iteration counters — unchanged. -/
theorem paused_tick_is_noop (cfgA cfgG cfgB : SimulationConfig)
    (d : Dist) (randA : ℕ → ℕ → ℚ) (stA : AcoState)
    (dg : Pt → Pt → ℚ) (prey : Pt) (randG : ℕ → ℕ → ℚ) (stG : GwoState)
    (fit : ℚ → ℚ → ℚ) (randB : ℕ → ℚ) (stB : BeesState)
    (hA : cfgA.isRunning = false) (hG : cfgG.isRunning = false)
    (hB : cfgB.isRunning = false) :
    acoTick cfgA d randA stA = stA ∧ gwoTick cfgG dg prey randG stG = stG ∧
      beesTick cfgB fit randB stB = stB := by
  refine ⟨?_, ?_, ?_⟩
  · simp [acoTick, hA]
  · simp [gwoTick, hG]
  · simp [beesTick, hB]

/-- Witness for C6 at concrete paused configurations and states. -/
theorem paused_tick_is_noop_witness :
    acoTick ⟨30, 30, false⟩ (fun _ _ => 0) (fun _ _ => 0) acoInit = acoInit ∧
      gwoTick ⟨30, 30, false⟩ (fun _ _ => 0) (300, 300) (fun _ _ => 0)
        ⟨[], (300, 300), Phase.EVALUATE, 0, 0⟩ =
        ⟨[], (300, 300), Phase.EVALUATE, 0, 0⟩ ∧
      beesTick ⟨30, 30, false⟩ (fun _ _ => 0) (fun _ => 0) ⟨[], 0, 0⟩ = ⟨[], 0, 0⟩ :=
  paused_tick_is_noop ⟨30, 30, false⟩ ⟨30, 30, false⟩ ⟨30, 30, false⟩
    (fun _ _ => 0) (fun _ _ => 0) acoInit (fun _ _ => 0) (300, 300)
    (fun _ _ => 0) ⟨[], (300, 300), Phase.EVALUATE, 0, 0⟩ (fun _ _ => 0)
    (fun _ => 0) ⟨[], 0, 0⟩ rfl rfl rfl

/-- C7 counterexample: with two candidates of zero desirability (total
desirability zero), the selection returns the FIRST candidate in iteration
order, not the last one as the claim states: the running value starts at
`r = rand · 0 = 0`, so the very first loop check `r - 0 ≤ 0` fires. -/
theorem roulette_zero_total_cex :
    rouletteSelect [0, 0] [0, 1] (1 / 2) = 0 ∧
      rouletteSelect [0, 0] [0, 1] (1 / 2) ≠ [0, 1].getLastD 0 := by
  norm_num [rouletteSelect, selectLoop]

/-- C7 amended: the selection step is a total function that never throws:
for every random draw it returns a member of the (nonempty) candidate list;
and when the total desirability is zero (all candidate weights zero) it
deterministically returns the first candidate in iteration order. -/
theorem roulette_total_and_zero_takes_first (probs : List ℚ) (cands : List ℕ)
    (r : ℚ) (hne : cands ≠ []) :
    rouletteSelect probs cands r ∈ cands ∧
      (probs.length = cands.length → (∀ q ∈ probs, q = 0) →
        rouletteSelect probs cands r = cands.headD 0) := by
  constructor
  · exact rouletteSelect_mem probs cands r hne
  · intro hlen hzero
    cases cands with
    | nil => exact absurd rfl hne
    | cons c cs =>
      cases probs with
      | nil => simp at hlen
      | cons p ps =>
        have hp : p = 0 := hzero p (by simp)
        have hps : ps.sum = 0 :=
          List.sum_eq_zero (fun q hq => hzero q (by simp [hq]))
        simp [rouletteSelect, selectLoop, hp, hps]

/-- Witness for the amended C7 at a concrete zero-desirability input. -/
theorem roulette_total_and_zero_takes_first_witness :
    rouletteSelect [0, 0] [2, 5] (1 / 3) ∈ [2, 5] ∧
      rouletteSelect [0, 0] [2, 5] (1 / 3) = [2, 5].headD 0 := by
  have h := roulette_total_and_zero_takes_first [0, 0] [2, 5] (1 / 3) (by decide)
  exact ⟨h.1, h.2 (by decide) (by decide)⟩

/-- C8: the source's per-dimension GWO update does NOT use a fresh draw for
the delta coefficient: `A3 = 2·A·r3 − A` reuses the beta draw `r3` and the
fresh draw `r5` is ignored. At the concrete input
`A = 2, r1 = r2 = r4 = 0, r3 = 1, r6 = 1/2, current = 0, alphaPos = betaPos
= 0, deltaPos = 1`, changing `r5` from `0` to `3/4` does not change the
result, and the result (`-1/3`) differs from the spec-mandated fresh-draw
version (`1`). -/
theorem gwo_delta_coefficient_reuses_r3 :
    computeDim 2 0 0 1 0 0 (1 / 2) 0 0 0 1 =
        computeDim 2 0 0 1 0 (3 / 4) (1 / 2) 0 0 0 1 ∧
      computeDim 2 0 0 1 0 0 (1 / 2) 0 0 0 1 ≠
        computeDimSpec 2 0 0 1 0 0 (1 / 2) 0 0 0 1 := by
  norm_num [computeDim, computeDimSpec]

/-- C1: in every tick, every one of the `populationSize` ants constructs a
path that is a permutation of all `CITY_COUNT` cities — each city index
appears exactly once, none is omitted — for any initialized city distances
and pheromone matrix, provided the random draws lie in `[0, 1)` (as
`Math.random()` guarantees). -/
theorem aco_every_path_is_permutation (cfg : SimulationConfig) (d : Dist)
    (ph : Phero) (rand : ℕ → ℕ → ℚ)
    (hrand : ∀ k i, 0 ≤ rand k i ∧ rand k i < 1) :
    ∀ p ∈ acoTickPaths cfg d ph rand, List.Perm p (List.range CITY_COUNT) := by
  intro p hp
  obtain ⟨k, _, rfl⟩ := List.mem_map.mp hp
  exact acoAntPath_perm d ph (rand k) (hrand k 0).1 (hrand k 0).2

/-- Witness for C1: the single ant of a concrete one-ant tick (unit
distances, all-ones pheromones, all draws 0) builds a permutation of the 15
cities. -/
theorem aco_every_path_is_permutation_witness :
    List.Perm (acoAntPath (fun _ _ => 1) (fun _ _ => 1) (fun _ => 0))
      (List.range CITY_COUNT) :=
  aco_every_path_is_permutation ⟨1, 50, true⟩ (fun _ _ => 1) (fun _ _ => 1)
    (fun _ _ => 0) (fun _ _ => ⟨le_refl 0, by norm_num⟩)
    (acoAntPath (fun _ _ => 1) (fun _ _ => 1) (fun _ => 0))
    (by simp [acoTickPaths])

/-- C4: starting from the all-ones initialization, after every tick of the
ACO engine the pheromone matrix is symmetric and every entry is strictly
positive, given that the abstracted city distances are nonnegative (as
`Math.sqrt` guarantees): evaporation multiplies by `1 - ρ = 9/10 > 0` and a
deposit adds the same nonnegative contribution to both directed edges. -/
theorem aco_pheromone_symmetric_positive (cfg : SimulationConfig) (d : Dist)
    (rand : ℕ → ℕ → ℕ → ℚ) (hd : ∀ i j, 0 ≤ d i j) (k : ℕ) :
    (∀ i j, (acoRun cfg d rand k).pheromones i j =
        (acoRun cfg d rand k).pheromones j i) ∧
      (∀ i j, 0 < (acoRun cfg d rand k).pheromones i j) := by
  induction k with
  | zero => exact ⟨fun _ _ => rfl, fun _ _ => one_pos⟩
  | succ k ih => exact acoTick_pheromones_sym_pos cfg d (rand k) _ hd ih

/-- Witness for C4 after one concrete tick (one ant, unit distances, all
draws 0), checked at the entry pair (0, 1). -/
theorem aco_pheromone_symmetric_positive_witness :
    (acoRun ⟨1, 50, true⟩ (fun _ _ => 1) (fun _ _ _ => 0) 1).pheromones 0 1 =
        (acoRun ⟨1, 50, true⟩ (fun _ _ => 1) (fun _ _ _ => 0) 1).pheromones 1 0 ∧
      0 < (acoRun ⟨1, 50, true⟩ (fun _ _ => 1) (fun _ _ _ => 0) 1).pheromones 0 1 :=
  ⟨(aco_pheromone_symmetric_positive ⟨1, 50, true⟩ (fun _ _ => 1)
      (fun _ _ _ => 0) (fun _ _ => zero_le_one) 1).1 0 1,
    (aco_pheromone_symmetric_positive ⟨1, 50, true⟩ (fun _ _ => 1)
      (fun _ _ _ => 0) (fun _ _ => zero_le_one) 1).2 0 1⟩

/-- C5: across every run of the ACO engine the best distance, initialized to
`Infinity` (`⊤`), never increases: after `m ≥ k` ticks it is at most what it
was after `k` ticks; and the stored best pair is replaced only on a strict
`<` comparison — whenever the candidate distance is not strictly below the
stored one (in particular on a tie) the stored best distance and best path
are kept unchanged. -/
theorem aco_best_distance_monotone (cfg : SimulationConfig) (d : Dist)
    (rand : ℕ → ℕ → ℕ → ℚ) :
    (∀ k m : ℕ, k ≤ m →
        (acoRun cfg d rand m).bestDist ≤ (acoRun cfg d rand k).bestDist) ∧
      (∀ (b : WithTop ℚ × List ℕ) (dd : ℚ) (p : List ℕ),
        ¬ ((dd : WithTop ℚ) < b.1) → updateBest b (dd, p) = b) := by
  constructor
  · intro k m h
    exact acoRun_bestDist_antitone cfg d rand h
  · intro b dd p hnot
    unfold updateBest
    rw [if_neg hnot]

/-- Witness for C5: one running tick from the initial state does not
increase the best distance, and a tied candidate does not replace the
stored best. -/
theorem aco_best_distance_monotone_witness :
    (acoRun ⟨1, 50, true⟩ (fun _ _ => 0) (fun _ _ _ => 0) 1).bestDist ≤
        (acoRun ⟨1, 50, true⟩ (fun _ _ => 0) (fun _ _ _ => 0) 0).bestDist ∧
      updateBest (((5 : ℚ) : WithTop ℚ), ([] : List ℕ)) (5, [0]) =
        (((5 : ℚ) : WithTop ℚ), ([] : List ℕ)) :=
  ⟨(aco_best_distance_monotone ⟨1, 50, true⟩ (fun _ _ => 0) (fun _ _ _ => 0)).1
      0 1 (Nat.zero_le 1),
    (aco_best_distance_monotone ⟨1, 50, true⟩ (fun _ _ => 0) (fun _ _ _ => 0)).2
      (((5 : ℚ) : WithTop ℚ), ([] : List ℕ)) 5 [0] (lt_irrefl _)⟩

/-- C3: for every configuration with `populationSize ≥ 1`, after every tick
of the Bees engine (and already at initialization) the population holds
exactly `populationSize` members: the rebuilt list of elites, recruited
neighbors, other-good neighbors and scouts is padded by the scout loop to at
least `populationSize` and then truncated by `slice(0, populationSize)`. -/
theorem bees_population_size_invariant (cfg : SimulationConfig)
    (fit : ℚ → ℚ → ℚ) (randInit rand : ℕ → ℕ → ℚ)
    (hpop : 1 ≤ cfg.populationSize) (k : ℕ) :
    (beesRun cfg fit randInit rand k).bees.length = cfg.populationSize := by
  induction k with
  | zero => simp [beesRun, beesInitBees]
  | succ k ih =>
    cases hrun : cfg.isRunning with
    | false => simpa only [beesRun, beesTick, hrun, if_false] using ih
    | true => exact beesTick_bees_length cfg fit (rand k) _ hrun

/-- Witness for C3 at a concrete configuration with population 5, two
ticks. -/
theorem bees_population_size_invariant_witness :
    (beesRun ⟨5, 50, true⟩ (fun _ _ => 0) (fun _ _ => 0) (fun _ _ => 0) 2).bees.length = 5 :=
  bees_population_size_invariant ⟨5, 50, true⟩ (fun _ _ => 0) (fun _ _ => 0)
    (fun _ _ => 0) (by decide) 2

/-- C2: after every RANK transition on a population of at least 3 wolves,
exactly one wolf holds each of the ranks alpha, beta and delta, every other
wolf is omega, and the scores satisfy
`score(alpha) ≤ score(beta) ≤ score(delta) ≤ score(w)` for every omega
wolf `w`. -/
theorem gwo_rank_postcondition (d : Pt → Pt → ℚ) (newPrey : Pt)
    (rand : ℕ → ℕ → ℚ) (st : GwoState) (hph : st.phase = Phase.RANK)
    (h3 : 3 ≤ st.wolves.length) :
    ∃ a b c rest,
      (advancePhase d newPrey rand st).wolves = a :: b :: c :: rest ∧
        a.type = WolfType.alpha ∧ b.type = WolfType.beta ∧
        c.type = WolfType.delta ∧ (∀ w ∈ rest, w.type = WolfType.omega) ∧
        (advancePhase d newPrey rand st).wolves.countP
          (fun w => decide (w.type = WolfType.alpha)) = 1 ∧
        (advancePhase d newPrey rand st).wolves.countP
          (fun w => decide (w.type = WolfType.beta)) = 1 ∧
        (advancePhase d newPrey rand st).wolves.countP
          (fun w => decide (w.type = WolfType.delta)) = 1 ∧
        a.score ≤ b.score ∧ b.score ≤ c.score ∧
        (∀ w ∈ rest, c.score ≤ w.score) := by
  have hwolves : (advancePhase d newPrey rand st).wolves = rankStep st.wolves := by
    simp [advancePhase, hph]
  have hlen : 3 ≤ (List.insertionSort wolfLE st.wolves).length := by
    rw [(List.perm_insertionSort wolfLE st.wolves).length_eq]
    exact h3
  obtain ⟨a, b, c, t, hs⟩ := exists_three_cons _ hlen
  have hsorted := List.sorted_insertionSort wolfLE st.wolves
  rw [hs, List.sorted_cons] at hsorted
  obtain ⟨ha, hsorted2⟩ := hsorted
  rw [List.sorted_cons] at hsorted2
  obtain ⟨hb, hsorted3⟩ := hsorted2
  rw [List.sorted_cons] at hsorted3
  obtain ⟨hc, _⟩ := hsorted3
  have hshape : rankStep st.wolves =
      { a with type := WolfType.alpha } :: { b with type := WolfType.beta } ::
        { c with type := WolfType.delta } :: t.map toOmega := by
    rw [rankStep, hs]
    rfl
  refine ⟨{ a with type := WolfType.alpha }, { b with type := WolfType.beta },
    { c with type := WolfType.delta }, t.map toOmega,
    by rw [hwolves, hshape], rfl, rfl, rfl, ?_, ?_, ?_, ?_,
    ha b (by simp), hb c (by simp), ?_⟩
  · intro w hw
    obtain ⟨v, _, rfl⟩ := List.mem_map.mp hw
    rfl
  · rw [hwolves, hshape]
    simp [List.countP_cons, toOmega]
  · rw [hwolves, hshape]
    simp [List.countP_cons, toOmega]
  · rw [hwolves, hshape]
    simp [List.countP_cons, toOmega]
  · intro w hw
    obtain ⟨v, hv, rfl⟩ := List.mem_map.mp hw
    exact hc v hv

/-- Witness for C2 on a concrete RANK-phase state with three wolves of
scores 3, 1, 2. -/
theorem gwo_rank_postcondition_witness :
    ∃ a b c rest,
      (advancePhase (fun _ _ => 0) (0, 0) (fun _ _ => 0)
          ⟨[⟨0, 0, 0, 0, 0, WolfType.omega, ((3 : ℚ) : WithTop ℚ)⟩,
            ⟨1, 0, 0, 0, 0, WolfType.omega, ((1 : ℚ) : WithTop ℚ)⟩,
            ⟨2, 0, 0, 0, 0, WolfType.omega, ((2 : ℚ) : WithTop ℚ)⟩],
            (0, 0), Phase.RANK, 0, 0⟩).wolves = a :: b :: c :: rest ∧
        a.type = WolfType.alpha ∧ b.type = WolfType.beta ∧
        c.type = WolfType.delta ∧ (∀ w ∈ rest, w.type = WolfType.omega) ∧
        (advancePhase (fun _ _ => 0) (0, 0) (fun _ _ => 0)
          ⟨[⟨0, 0, 0, 0, 0, WolfType.omega, ((3 : ℚ) : WithTop ℚ)⟩,
            ⟨1, 0, 0, 0, 0, WolfType.omega, ((1 : ℚ) : WithTop ℚ)⟩,
            ⟨2, 0, 0, 0, 0, WolfType.omega, ((2 : ℚ) : WithTop ℚ)⟩],
            (0, 0), Phase.RANK, 0, 0⟩).wolves.countP
          (fun w => decide (w.type = WolfType.alpha)) = 1 ∧
        (advancePhase (fun _ _ => 0) (0, 0) (fun _ _ => 0)
          ⟨[⟨0, 0, 0, 0, 0, WolfType.omega, ((3 : ℚ) : WithTop ℚ)⟩,
            ⟨1, 0, 0, 0, 0, WolfType.omega, ((1 : ℚ) : WithTop ℚ)⟩,
            ⟨2, 0, 0, 0, 0, WolfType.omega, ((2 : ℚ) : WithTop ℚ)⟩],
            (0, 0), Phase.RANK, 0, 0⟩).wolves.countP
          (fun w => decide (w.type = WolfType.beta)) = 1 ∧
        (advancePhase (fun _ _ => 0) (0, 0) (fun _ _ => 0)
          ⟨[⟨0, 0, 0, 0, 0, WolfType.omega, ((3 : ℚ) : WithTop ℚ)⟩,
            ⟨1, 0, 0, 0, 0, WolfType.omega, ((1 : ℚ) : WithTop ℚ)⟩,
            ⟨2, 0, 0, 0, 0, WolfType.omega, ((2 : ℚ) : WithTop ℚ)⟩],
            (0, 0), Phase.RANK, 0, 0⟩).wolves.countP
          (fun w => decide (w.type = WolfType.delta)) = 1 ∧
        a.score ≤ b.score ∧ b.score ≤ c.score ∧
        (∀ w ∈ rest, c.score ≤ w.score) :=
  gwo_rank_postcondition (fun _ _ => 0) (0, 0) (fun _ _ => 0)
    ⟨[⟨0, 0, 0, 0, 0, WolfType.omega, ((3 : ℚ) : WithTop ℚ)⟩,
      ⟨1, 0, 0, 0, 0, WolfType.omega, ((1 : ℚ) : WithTop ℚ)⟩,
      ⟨2, 0, 0, 0, 0, WolfType.omega, ((2 : ℚ) : WithTop ℚ)⟩],
      (0, 0), Phase.RANK, 0, 0⟩ rfl (by simp)

/-- C10: the CALCULATE transition is skipped entirely when a leader is
missing: if any of the ranks alpha, beta, delta is unassigned when the
CALCULATE transition fires, the wolf list — target positions included — is
returned unchanged; moreover a RANK pass over a population of at most 2
wolves never assigns a delta, so packs of size 1 or 2 always hit the skip
and never receive a new movement target. -/
theorem gwo_calculate_skipped_without_leaders (d : Pt → Pt → ℚ)
    (newPrey : Pt) (rand : ℕ → ℕ → ℚ) (st : GwoState)
    (hph : st.phase = Phase.CALCULATE) :
    ((findType st.wolves WolfType.alpha = none ∨
        findType st.wolves WolfType.beta = none ∨
        findType st.wolves WolfType.delta = none) →
      (advancePhase d newPrey rand st).wolves = st.wolves) ∧
      (∀ ws : List Wolf, ws.length ≤ 2 →
        findType (rankStep ws) WolfType.delta = none) := by
  constructor
  · intro hmiss
    have key : calculateStep rand st.iteration st.wolves = st.wolves := by
      cases ha : findType st.wolves WolfType.alpha with
      | none => simp [calculateStep, ha]
      | some a =>
        cases hb : findType st.wolves WolfType.beta with
        | none => simp [calculateStep, ha, hb]
        | some b =>
          cases hd : findType st.wolves WolfType.delta with
          | none => simp [calculateStep, ha, hb, hd]
          | some c => rcases hmiss with h | h | h <;> simp_all
    simp [advancePhase, hph, key]
  · intro ws hlen
    have hlen' : (List.insertionSort wolfLE ws).length ≤ 2 := by
      rw [(List.perm_insertionSort wolfLE ws).length_eq]
      exact hlen
    rw [rankStep]
    rcases hs : List.insertionSort wolfLE ws with _ | ⟨a, _ | ⟨b, _ | ⟨c, t⟩⟩⟩
    · rfl
    · rfl
    · rfl
    · rw [hs] at hlen'
      simp at hlen'

/-- Witness for C10: a CALCULATE-phase state with no wolves (hence no
alpha) keeps its wolf list, and a one-wolf RANK result has no delta. -/
theorem gwo_calculate_skipped_without_leaders_witness :
    (advancePhase (fun _ _ => 0) (0, 0) (fun _ _ => 0)
        ⟨[], (0, 0), Phase.CALCULATE, 0, 0⟩).wolves = [] ∧
      findType (rankStep [⟨0, 1, 2, 3, 4, WolfType.omega, ((7 : ℚ) : WithTop ℚ)⟩])
        WolfType.delta = none := by
  have h := gwo_calculate_skipped_without_leaders (fun _ _ => 0) (0, 0)
    (fun _ _ => 0) ⟨[], (0, 0), Phase.CALCULATE, 0, 0⟩ rfl
  exact ⟨h.1 (Or.inl rfl), h.2 [⟨0, 1, 2, 3, 4, WolfType.omega, ((7 : ℚ) : WithTop ℚ)⟩] (by simp)⟩

/-- C9: initialization performs no validation: with `populationSize = 0`
(< 1) both the GWO and the Bees initializers succeed and silently produce an
empty population, and with `populationSize = 2` (< 3, so the GWO hierarchy
cannot be filled) GWO initialization silently produces 2 wolves — no
configuration is ever rejected with an error. -/
theorem invalid_config_init_accepted :
    gwoInitWolves 0 (fun _ _ => 0) = [] ∧
      (gwoInitWolves 2 (fun _ _ => 0)).length = 2 ∧
      beesInitBees 0 (fun _ _ => 0) = [] ∧
      (beesInitBees 2 (fun _ _ => 0)).length = 2 := by
  refine ⟨rfl, ?_, rfl, ?_⟩ <;> simp [gwoInitWolves, beesInitBees]

end GWViz
